import Mathlib

/-!
Verification of the sample transformation engine of
`stackdriver-prometheus-sidecar` (`retrieval/transform.go`).

The Go source is shallowly embedded below.  Conventions used throughout:

* `float64` is modelled by `F`: a NaN marker, signed infinities, and exact
  rationals standing in for finite doubles.  The claims under study depend
  only on NaN/infinity propagation, sign tests and the zero guard, which the
  rational model reproduces exactly; binary64 rounding is not modelled.
* Machine integers (`int64`) are modelled by `Int`; the only conversion the
  code performs, `int64(v)` on a `float64`, truncates toward zero, which is
  the Go behaviour for in-range finite values (out-of-range behaviour is
  implementation-defined in Go; we pick a fixed convention).
* Strings are byte strings of ASCII metric names; they are modelled as
  `List Char` so that slicing (`name[len(base):]`) coincides with the Go
  byte slicing on the ASCII data the engine handles.
* The `seriesGetter` collaborator (series directory) is a record of pure
  functions.  Every call the engine makes into it is additionally recorded
  in an explicit trace, so "no directory operation is invoked" is a
  provable statement.
-/

namespace SidecarTransform

/-- Model of `float64`: NaN, signed infinity (`inf true` is `-Inf`),
or a finite value represented exactly as a rational. -/
inductive F where
  | nan : F
  | inf (neg : Bool) : F
  | fin (q : ℚ) : F
deriving DecidableEq

/-- Test `math.IsNaN`. -/
def F.isNaN : F → Bool
  | .nan => true
  | _ => false

/-- Test `math.IsInf(x, 1)`: positive infinity. -/
def F.isPosInf : F → Bool
  | .inf false => true
  | _ => false

/-- IEEE `<` on doubles: NaN is incomparable to everything. -/
def F.lt : F → F → Bool
  | .nan, _ => false
  | _, .nan => false
  | .inf true, .inf true => false
  | .inf true, _ => true
  | _, .inf true => false
  | .inf false, _ => false
  | .fin _, .inf false => true
  | .fin a, .fin b => decide (a < b)

/-- IEEE `==` on doubles: NaN compares unequal to everything, itself included. -/
def F.feq : F → F → Bool
  | .inf s, .inf t => s == t
  | .fin a, .fin b => decide (a = b)
  | _, _ => false

/-- IEEE `<=` on doubles. -/
def F.le (a b : F) : Bool := F.lt a b || F.feq a b

def F.neg : F → F
  | .nan => .nan
  | .inf s => .inf (!s)
  | .fin q => .fin (-q)

/-- IEEE addition (rounding replaced by exact rational arithmetic). -/
def F.add : F → F → F
  | .nan, _ => .nan
  | _, .nan => .nan
  | .inf s, .inf t => if s == t then .inf s else .nan
  | .inf s, .fin _ => .inf s
  | .fin _, .inf t => .inf t
  | .fin a, .fin b => .fin (a + b)

def F.sub (a b : F) : F := F.add a (F.neg b)

/-- IEEE multiplication (rounding replaced by exact rational arithmetic). -/
def F.mul : F → F → F
  | .nan, _ => .nan
  | _, .nan => .nan
  | .inf s, .inf t => .inf (xor s t)
  | .inf s, .fin b => if b = 0 then .nan else .inf (xor s (decide (b < 0)))
  | .fin a, .inf t => if a = 0 then .nan else .inf (xor (decide (a < 0)) t)
  | .fin a, .fin b => .fin (a * b)

/-- IEEE division (rounding replaced by exact rational arithmetic). -/
def F.div : F → F → F
  | .nan, _ => .nan
  | _, .nan => .nan
  | .inf _, .inf _ => .nan
  | .inf s, .fin b => .inf (xor s (decide (b < 0)))
  | .fin _, .inf _ => .fin 0
  | .fin a, .fin b =>
      if b = 0 then (if a = 0 then .nan else .inf (decide (a < 0)))
      else .fin (a / b)

/-- Go conversion `int64(v)` on a `float64`: truncation toward zero for
finite values.  Go leaves non-finite / out-of-range conversions
implementation-defined; we fix NaN to 0 and infinities to the int64
extremes (the claims never exercise these cases). -/
def F.toInt64 : F → Int
  | .nan => 0
  | .inf true => -(2 ^ 63)
  | .inf false => 2 ^ 63 - 1
  | .fin q => q.num.tdiv (q.den : Int)

/-- Go conversion `float64(n)` on an `int64` (exact in our model). -/
def intToF (n : Int) : F := F.fin (n : ℚ)

/-- Composition `int64(math.Round(v))`: round half away from zero, then
convert, as used by `buildTypedValue` (non-finite convention as above). -/
def F.roundInt64 : F → Int
  | .nan => 0
  | .inf true => -(2 ^ 63)
  | .inf false => 2 ^ 63 - 1
  | .fin q => if 0 ≤ q then ⌊q + 1/2⌋ else -⌊-q + 1/2⌋

/-- ASCII byte strings of the Go code, as character lists. -/
abbrev Str := List Char

/-- One `tsdbLabels.Label`. -/
structure Label where
  name : Str
  value : Str
deriving DecidableEq

/-- Function `tsdbLabels.Labels.Get`: value of the first label with the given name,
or the empty string. -/
def getLabel : List Label → Str → Str
  | [], _ => []
  | l :: ls, n => if l.name = n then l.value else getLabel ls n

def leName : Str := "le".toList
def nameName : Str := "__name__".toList

def metricSuffixBucket : Str := "_bucket".toList
def metricSuffixSum : Str := "_sum".toList
def metricSuffixCount : Str := "_count".toList
def metricSuffixTotal : Str := "_total".toList

/-- Function `stripComplexMetricSuffix` from `transform.go`: try `_bucket`, `_count`,
`_sum`, `_total` in that order, strip the first that matches. -/
def stripComplexMetricSuffix (name : Str) : Str × Str × Bool :=
  if metricSuffixBucket.isSuffixOf name then
    (name.take (name.length - metricSuffixBucket.length), metricSuffixBucket, true)
  else if metricSuffixCount.isSuffixOf name then
    (name.take (name.length - metricSuffixCount.length), metricSuffixCount, true)
  else if metricSuffixSum.isSuffixOf name then
    (name.take (name.length - metricSuffixSum.length), metricSuffixSum, true)
  else if metricSuffixTotal.isSuffixOf name then
    (name.take (name.length - metricSuffixTotal.length), metricSuffixTotal, true)
  else (name, [], false)

/-- The label skip test of `histogramLabelsEqual`:
`l.Name == "le" || l.Name == "__name__"`. -/
def isRoutingLabel (l : Label) : Bool := l.name = leName || l.name = nameName

/-- Function `histogramLabelsEqual` from `transform.go`.  The Go function walks two
cursors, skipping `le`/`__name__` labels on either side before each
comparison, and finally drains trailing skipped labels; the recursion below
performs the same cursor movements (the `b` cursor movement is expressed by
`dropWhile`, which is exactly the consecutive `j++; continue` steps). -/
def histogramLabelsEqual : List Label → List Label → Bool
  | [], b => (b.dropWhile isRoutingLabel).isEmpty
  | x :: a, b =>
    if isRoutingLabel x then histogramLabelsEqual a b
    else
      match b.dropWhile isRoutingLabel with
      | [] => false
      | y :: b' => x = y && histogramLabelsEqual a b'

/-- A protobuf timestamp (`seconds` + `nanos`).  `nanos` is an `int32` in the
proto; its value here is below `10^9`, so `Int` is a faithful carrier. -/
structure Timestamp where
  seconds : Int
  nanos : Int
deriving DecidableEq

/-- Function `getTimestamp` from `transform.go`: millisecond epoch to protobuf
timestamp.  Go `/` and `%` on `int64` truncate toward zero, hence
`Int.tdiv` / `Int.tmod`. -/
def getTimestamp (t : Int) : Timestamp :=
  ⟨t.tdiv 1000, t.tmod 1000 * 1000000⟩

/-- Model of `strconv.ParseFloat(s, 64)`, given for the inputs the engine meets on
`le` labels: optional sign, the special spellings of infinity and NaN, and
decimal literals with an optional fraction.  (Go additionally accepts
exponents, hex floats and underscores and is fully case-insensitive on the
specials; those accepted forms do not affect any claim, which depend only
on some strings parsing — to the value Go would produce — and malformed
strings failing.)  Rounding to binary64 is replaced by the exact rational. -/
def parseDigits : List Char → Nat → Nat
  | [], acc => acc
  | c :: cs, acc => parseDigits cs (acc * 10 + (c.toNat - '0'.toNat))

def isDigitCh (c : Char) : Bool := decide ('0' ≤ c) && decide (c ≤ '9')

def parseUnsigned (s : Str) : Option ℚ :=
  let intPart := s.takeWhile isDigitCh
  let rest := s.dropWhile isDigitCh
  if intPart.isEmpty then none
  else
    match rest with
    | [] => some ((parseDigits intPart 0 : ℚ))
    | '.' :: frac =>
      if !frac.isEmpty && frac.all isDigitCh then
        some ((parseDigits intPart 0 : ℚ) + (parseDigits frac 0 : ℚ) / (10 ^ frac.length : ℚ))
      else none
    | _ => none

def parseFloat (s : Str) : Option F :=
  if s.isEmpty then none
  else
    let signBody : Bool × Str :=
      match s with
      | '+' :: r => (false, r)
      | '-' :: r => (true, r)
      | r => (false, r)
    let neg := signBody.1
    let body := signBody.2
    if body = "Inf".toList || body = "inf".toList || body = "Infinity".toList then
      some (F.inf neg)
    else if body = "NaN".toList || body = "nan".toList then some F.nan
    else (parseUnsigned body).map (fun q => F.fin (if neg then -q else q))

/-! ## The monitoring-API value model -/

/-- Enum `metric_pb.MetricDescriptor_ValueType`; only `INT64` is distinguished by
the engine (`buildTypedValue`), every other declared type takes the double
path. -/
inductive ValueType where
  | i64 : ValueType
  | dbl : ValueType
  | otherVT (n : Nat) : ValueType
deriving DecidableEq

/-- The emitted `distribution_pb.Distribution` (the fields the engine
populates). -/
structure Dist where
  count : Int
  mean : F
  dev : F
  bounds : List F
  bucketCounts : List Int
deriving DecidableEq

/-- Proto `monitoring_pb.TypedValue`: one of double, int64 or distribution. -/
inductive TypedValue where
  | double (v : F) : TypedValue
  | i64 (v : Int) : TypedValue
  | dist (d : Dist) : TypedValue
deriving DecidableEq

/-- Function `buildTypedValue` from `transform.go`. -/
def buildTypedValue (vt : ValueType) (v : F) : TypedValue :=
  if vt = ValueType.i64 then TypedValue.i64 v.roundInt64 else TypedValue.double v

/-- One `monitoring_pb.Point`. -/
structure Point where
  startTime : Option Timestamp
  endTime : Timestamp
  value : Option TypedValue
deriving DecidableEq

/-- Modelled from the spec: the pre-populated time-series proto skeleton held
by a series entry (metric descriptor, resource and metric labels).  The code
that builds it (the series cache) is not part of the sources under
verification; per the spec it contains "all labels except sample-specific
fields", in particular no points, so the skeleton is carried opaquely and
the point list of an emitted series is exactly what `next` appends. -/
structure Template where
  tag : Nat
deriving DecidableEq

/-- The emitted `monitoring_pb.TimeSeries`: the copied skeleton plus the
appended points. -/
structure TimeSeries where
  tmpl : Template
  points : List Point
deriving DecidableEq

/-! ## The series directory collaborator -/

/-- Enum-like `textparse.MetricType`; the catch-all constructor carries any other
type string (`info`, `stateset`, ...), which `next` rejects. -/
inductive MetricType where
  | counter : MetricType
  | gauge : MetricType
  | unknown : MetricType
  | summary : MetricType
  | histogram : MetricType
  | other (s : Str) : MetricType
deriving DecidableEq

/-- A `seriesCacheEntry` as seen through `seriesGetter.get`:
`metricName` is `entry.metadata.Metric`, the base metric name. -/
structure Entry where
  lset : List Label
  metricName : Str
  mtype : MetricType
  vtype : ValueType
  suffix : Str
  exported : Bool
  hasTracker : Bool
  proto : Template
  hash : Nat
deriving DecidableEq

/-- Result of `seriesGetter.get`: `(entry, ok, err)` collapsed to the three
reachable shapes. -/
inductive GetRes where
  | err : GetRes
  | miss : GetRes
  | hit (e : Entry) : GetRes

/-- The narrow `seriesGetter` interface, as pure functions.
`getResetAdjusted` returns `(resetTimestamp, adjustedValue, ok)`. -/
structure SeriesDir where
  get : Nat → GetRes
  getResetAdjusted : Nat → Int → F → Int × F × Bool
  updateSampleInterval : Nat → Int → Int → Bool

/-- A recorded call into the series directory (or the tracker hook). -/
inductive DirCall where
  | get (ref : Nat) : DirCall
  | getResetAdjusted (ref : Nat) (t : Int) (v : F) : DirCall
  | updateSampleInterval (h : Nat) (rt : Int) (t : Int) : DirCall
  | trackerNewPoint (lset : List Label) (t : Int) (v : F) : DirCall
deriving DecidableEq

/-- Record `tsdb.RefSample`. -/
structure RefSample where
  ref : Nat
  t : Int
  v : F
deriving DecidableEq

/-! ## The distribution builder -/

/-- The local state of `buildDistribution`'s `Loop` over the sample stream:
`consumed`, the `count`/`sum` accumulators, the authoritative
`resetTimestamp`, `lastTimestamp`, the scratch `dist` (parallel `bounds`
and `values`), the `skip` flag, and the recorded directory calls. -/
structure WalkState where
  consumed : Nat
  count : F
  sum : F
  resetTimestamp : Int
  lastTimestamp : Int
  bounds : List F
  values : List Int
  skip : Bool
  trace : List DirCall
deriving DecidableEq

def initWalkState : WalkState :=
  { consumed := 0, count := F.fin 0, sum := F.fin 0, resetTimestamp := 0,
    lastTimestamp := 0, bounds := [], values := [], skip := false, trace := [] }

/-- The `Loop` of `buildDistribution`, one Go iteration per list element.
The returned `Bool` is true when `b.series.get` reported an error (the Go
code then returns the error together with the full original stream).
Breaking out of the loop — on a foreign series, a timestamp change, or an
unrecognized suffix — returns the state accumulated so far. -/
def walk (dir : SeriesDir) (baseName : Str) (matchLset : List Label) :
    List RefSample → Nat → WalkState → WalkState × Bool
  | [], _, st => (st, false)
  | s :: rest, i, st =>
    let st := { st with trace := st.trace ++ [DirCall.get s.ref] }
    match dir.get s.ref with
    | .err => (st, true)
    | .miss => walk dir baseName matchLset rest (i + 1) { st with consumed := st.consumed + 1 }
    | .hit e =>
      let name := getLabel e.lset nameName
      if !(baseName.isPrefixOf name && histogramLabelsEqual e.lset matchLset) then (st, false)
      else if decide (i > 0) && !(s.t == st.lastTimestamp) then (st, false)
      else
        let st := { st with lastTimestamp := s.t }
        let rva := dir.getResetAdjusted s.ref s.t s.v
        let st := { st with trace := st.trace ++ [DirCall.getResetAdjusted s.ref s.t s.v] }
        let rem := name.drop baseName.length
        if rem = metricSuffixSum then
          walk dir baseName matchLset rest (i + 1)
            { st with sum := rva.2.1, skip := st.skip || !rva.2.2, consumed := st.consumed + 1 }
        else if rem = metricSuffixCount then
          walk dir baseName matchLset rest (i + 1)
            { st with count := rva.2.1, resetTimestamp := rva.1,
                      skip := st.skip || !rva.2.2, consumed := st.consumed + 1 }
        else if rem = metricSuffixBucket then
          match parseFloat (getLabel e.lset leName) with
          | none =>
            -- `continue` on an unparseable `le`: consume, but do not touch `skip`.
            walk dir baseName matchLset rest (i + 1) { st with consumed := st.consumed + 1 }
          | some upper =>
            walk dir baseName matchLset rest (i + 1)
              { st with bounds := st.bounds ++ [upper],
                        values := st.values ++ [rva.2.1.toInt64],
                        skip := st.skip || !rva.2.2, consumed := st.consumed + 1 }
        else (st, false)

/-- Insertion of one `(bound, cumulative-count)` pair in front of the first
strictly greater bound — the element move realized by the `sort.Sort` call
on the `distribution`'s `Less`/`Swap`, which swaps `bounds` and `values` in
lockstep.  The pairing makes that lockstep structural. -/
def insertPair (p : F × Int) : List (F × Int) → List (F × Int)
  | [] => [p]
  | q :: qs => if F.lt p.1 q.1 then p :: q :: qs else q :: insertPair p qs

/-- Model of `sort.Sort(&dist)`: Go guarantees an in-place permutation that
is ordered by `Less` whenever `Less` is a strict weak order; insertion sort
realizes such a permutation. -/
def sortPairs : List (F × Int) → List (F × Int)
  | [] => []
  | p :: ps => insertPair p (sortPairs ps)

/-- The cumulative-to-delta lowering loop at the end of `buildDistribution`:
walks the sorted `(bound, cumulative)` pairs carrying `lower` and `prevVal`,
accumulating the emitted bounds (finite bounds only), the per-bucket deltas
and the sum of squared deviations. -/
def lowerBuckets (mean : F) : List (F × Int) → F → Int → List F → List Int → F →
    List F × List Int × F
  | [], _, _, bAcc, vAcc, dev => (bAcc, vAcc, dev)
  | (u, c) :: rest, lower, prevVal, bAcc, vAcc, dev =>
    let upper := if u.isPosInf then lower else u
    let bAcc' := if u.isPosInf then bAcc else bAcc ++ [u]
    let val := c - prevVal
    let x := (lower.add upper).div (F.fin 2)
    let dev' := dev.add ((intToF val).mul ((x.sub mean).mul (x.sub mean)))
    lowerBuckets mean rest upper c bAcc' (vAcc ++ [val]) dev'

/-- The possible error returns of `next` / `buildDistribution`. -/
inductive Err where
  | getSeries : Err
  | unexpectedSuffix (s : Str) : Err
  | unexpectedType (t : MetricType) : Err
deriving DecidableEq

/-- Result of `buildDistribution`:
`(distribution?, resetTimestamp, remaining stream, error?)` plus the trace. -/
structure BDResult where
  dist : Option Dist
  resetTimestamp : Int
  rest : List RefSample
  err : Option Err
  trace : List DirCall
deriving DecidableEq

/-- Function `sampleBuilder.buildDistribution` from `transform.go`: run the
`Loop`, bail out on a directory error (full stream) or when `skip` is set /
no `_count` anchor was seen (consumed suffix), otherwise sort the scratch
buckets, compute the mean under the `count > 0` guard, lower cumulative
buckets to deltas and assemble the `Distribution`. -/
def buildDistribution (dir : SeriesDir) (baseName : Str) (matchLset : List Label)
    (samples : List RefSample) : BDResult :=
  let r := walk dir baseName matchLset samples 0 initWalkState
  let st := r.1
  if r.2 then ⟨none, 0, samples, some Err.getSeries, st.trace⟩
  else if st.skip || st.resetTimestamp == 0 then
    ⟨none, 0, samples.drop st.consumed, none, st.trace⟩
  else
    let pairs := sortPairs (st.bounds.zip st.values)
    let mean := if F.lt (F.fin 0) st.count then st.sum.div st.count else F.fin 0
    let lb := lowerBuckets mean pairs (F.fin 0) 0 [] [] (F.fin 0)
    ⟨some ⟨st.count.toInt64, mean, lb.2.2, lb.1, lb.2.1⟩,
      st.resetTimestamp, samples.drop st.consumed, none, st.trace⟩

/-! ## The sample builder -/

/-- Result of `sampleBuilder.next`:
`(timeSeries?, hash, remaining stream, error?)` plus the trace. -/
structure NextResult where
  point : Option TimeSeries
  hash : Nat
  rest : List RefSample
  err : Option Err
  trace : List DirCall
deriving DecidableEq

/-- The common tail of every emitting path of `next`: consult the
`updateSampleInterval` gate and, if it accepts, emit the copied proto with
the single fresh point appended. -/
def finish (dir : SeriesDir) (entry : Entry) (sample : RefSample)
    (rest : List RefSample) (rt : Int) (p : Point) (tr : List DirCall) : NextResult :=
  let tr := tr ++ [DirCall.updateSampleInterval entry.hash rt sample.t]
  if !dir.updateSampleInterval entry.hash rt sample.t then ⟨none, 0, rest, none, tr⟩
  else ⟨some ⟨entry.proto, [p]⟩, entry.hash, rest, none, tr⟩

/-- Function `sampleBuilder.next` from `transform.go`, for a non-empty input
stream `sample :: tail` (the Go code indexes `samples[0]` unconditionally).
The structure follows the source line by line: NaN drop, series lookup,
tracker hook, export gate, the fresh point with `endTime`, the dispatch on
the metric type, and the sample-interval gate before emission. -/
def next (dir : SeriesDir) (sample : RefSample) (tail : List RefSample) : NextResult :=
  if sample.v.isNaN then ⟨none, 0, tail, none, []⟩
  else
    match dir.get sample.ref with
    | .err => ⟨none, 0, sample :: tail, some Err.getSeries, [DirCall.get sample.ref]⟩
    | .miss => ⟨none, 0, tail, none, [DirCall.get sample.ref]⟩
    | .hit entry =>
      let tr := [DirCall.get sample.ref] ++
        (if entry.hasTracker then [DirCall.trackerNewPoint entry.lset sample.t sample.v] else [])
      if !entry.exported then ⟨none, 0, tail, none, tr⟩
      else
        let p0 : Point := ⟨none, getTimestamp sample.t, none⟩
        match entry.mtype with
        | .counter =>
          let rva := dir.getResetAdjusted sample.ref sample.t sample.v
          let tr := tr ++ [DirCall.getResetAdjusted sample.ref sample.t sample.v]
          if !rva.2.2 then ⟨none, 0, tail, none, tr⟩
          else
            finish dir entry sample tail rva.1
              { p0 with startTime := some (getTimestamp rva.1),
                        value := some (buildTypedValue entry.vtype rva.2.1) } tr
        | .gauge =>
          finish dir entry sample tail 0
            { p0 with value := some (buildTypedValue entry.vtype sample.v) } tr
        | .unknown =>
          finish dir entry sample tail 0
            { p0 with value := some (buildTypedValue entry.vtype sample.v) } tr
        | .summary =>
          if entry.suffix = metricSuffixSum then
            let rva := dir.getResetAdjusted sample.ref sample.t sample.v
            let tr := tr ++ [DirCall.getResetAdjusted sample.ref sample.t sample.v]
            if !rva.2.2 then ⟨none, 0, tail, none, tr⟩
            else
              finish dir entry sample tail rva.1
                { p0 with startTime := some (getTimestamp rva.1),
                          value := some (TypedValue.double rva.2.1) } tr
          else if entry.suffix = metricSuffixCount then
            let rva := dir.getResetAdjusted sample.ref sample.t sample.v
            let tr := tr ++ [DirCall.getResetAdjusted sample.ref sample.t sample.v]
            if !rva.2.2 then ⟨none, 0, tail, none, tr⟩
            else
              finish dir entry sample tail rva.1
                { p0 with startTime := some (getTimestamp rva.1),
                          value := some (TypedValue.i64 rva.2.1.toInt64) } tr
          else if entry.suffix = ([] : Str) then
            -- Actual quantiles.
            finish dir entry sample tail 0
              { p0 with value := some (TypedValue.double sample.v) } tr
          else ⟨none, 0, tail, some (Err.unexpectedSuffix entry.suffix), tr⟩
        | .histogram =>
          let bd := buildDistribution dir entry.metricName entry.lset (sample :: tail)
          let tr := tr ++ bd.trace
          match bd.dist, bd.err with
          | some d, none =>
            finish dir entry sample bd.rest bd.resetTimestamp
              { p0 with startTime := some (getTimestamp bd.resetTimestamp),
                        value := some (TypedValue.dist d) } tr
          | _, _ => ⟨none, 0, bd.rest, bd.err, tr⟩
        | .other u => ⟨none, 0, tail, some (Err.unexpectedType (MetricType.other u)), tr⟩

/-! ## Auxiliary definitions used by the statements -/

/-- The labels `histogramLabelsEqual` actually compares. -/
def keepLabel (l : Label) : Bool := !isRoutingLabel l

/-- Whether a sample resolves (through the directory) to a series of the
histogram family under construction: lookup hit, base-name match, and label
match — the continuation condition of `buildDistribution`'s `Loop`. -/
def famMatch (dir : SeriesDir) (baseName : Str) (matchLset : List Label)
    (s : RefSample) : Bool :=
  match dir.get s.ref with
  | .hit e => baseName.isPrefixOf (getLabel e.lset nameName) && histogramLabelsEqual e.lset matchLset
  | _ => false

/-- The trace prefix of every post-lookup path of `next`: the `get` call plus
the unconditional tracker hook. -/
def baseTrace (e : Entry) (s : RefSample) : List DirCall :=
  [DirCall.get s.ref] ++
    (if e.hasTracker then [DirCall.trackerNewPoint e.lset s.t s.v] else [])

/-- Concrete fixtures: a directory on which every lookup misses. -/
def dirMiss : SeriesDir :=
  ⟨fun _ => GetRes.miss, fun _ _ v => (0, v, false), fun _ _ _ => true⟩

def tmpl0 : Template := ⟨0⟩

/-- A histogram-typed series whose name is exactly the base metric name. -/
def entHistBase : Entry :=
  ⟨[⟨nameName, "foo".toList⟩], "foo".toList, MetricType.histogram, ValueType.dbl,
    [], true, false, tmpl0, 7⟩

def dirHistBase : SeriesDir :=
  ⟨fun _ => GetRes.hit entHistBase, fun _ _ v => (1, v, true), fun _ _ _ => true⟩

/-- A histogram `_count` series of the family `foo`. -/
def entCount : Entry :=
  ⟨[⟨nameName, "foo_count".toList⟩], "foo".toList, MetricType.histogram, ValueType.dbl,
    metricSuffixCount, true, false, tmpl0, 8⟩

def dirCount : SeriesDir :=
  ⟨fun _ => GetRes.hit entCount, fun _ _ v => (5, v, true), fun _ _ _ => true⟩

/-- A histogram `_bucket` series of the family `foo` with `le = "+Inf"`. -/
def entBucketInf : Entry :=
  ⟨[⟨nameName, "foo_bucket".toList⟩, ⟨leName, "+Inf".toList⟩], "foo".toList,
    MetricType.histogram, ValueType.dbl, metricSuffixBucket, true, false, tmpl0, 9⟩

def dirHistPair : SeriesDir :=
  ⟨fun r => if r = 1 then GetRes.hit entBucketInf else GetRes.hit entCount,
    fun _ _ v => (5, v, true), fun _ _ _ => true⟩

def entGauge : Entry :=
  ⟨[⟨nameName, "g".toList⟩], "g".toList, MetricType.gauge, ValueType.dbl,
    [], true, false, tmpl0, 21⟩

def dirGauge : SeriesDir :=
  ⟨fun _ => GetRes.hit entGauge, fun _ _ v => (5, v, true), fun _ _ _ => true⟩

/-- A summary series carrying an unrecognized name suffix. -/
def entBadSummary : Entry :=
  ⟨[⟨nameName, "s".toList⟩], "s".toList, MetricType.summary, ValueType.dbl,
    "_q".toList, true, false, tmpl0, 22⟩

def dirBadSummary : SeriesDir :=
  ⟨fun _ => GetRes.hit entBadSummary, fun _ _ v => (5, v, true), fun _ _ _ => true⟩

/-! ## Helper lemmas: the label comparator -/

theorem filter_keep_dropWhile (b : List Label) :
    (b.dropWhile isRoutingLabel).filter keepLabel = b.filter keepLabel := by
  induction b with
  | nil => rfl
  | cons y ys ih =>
    by_cases hy : isRoutingLabel y = true
    · simp [List.dropWhile_cons, hy, List.filter_cons, keepLabel, ih]
    · simp at hy
      simp [List.dropWhile_cons, hy, List.filter_cons, keepLabel]

theorem dropWhile_isEmpty_iff (b : List Label) :
    (b.dropWhile isRoutingLabel).isEmpty = true ↔ b.filter keepLabel = [] := by
  induction b with
  | nil => simp
  | cons y ys ih =>
    by_cases hy : isRoutingLabel y = true
    · rw [List.dropWhile_cons, if_pos hy, List.filter_cons]
      simp only [keepLabel, hy]
      simp [ih]
    · simp at hy
      simp [List.dropWhile_cons, hy, List.filter_cons, keepLabel]

theorem dropWhile_head_not (b : List Label) (y : Label) (b' : List Label)
    (h : b.dropWhile isRoutingLabel = y :: b') : isRoutingLabel y = false := by
  induction b with
  | nil => simp at h
  | cons z zs ih =>
    by_cases hz : isRoutingLabel z = true
    · rw [List.dropWhile_cons, if_pos hz] at h
      exact ih h
    · simp at hz
      rw [List.dropWhile_cons, if_neg (by simp [hz])] at h
      cases h
      exact hz

theorem histogramLabelsEqual_iff_filter (a b : List Label) :
    histogramLabelsEqual a b = true ↔ a.filter keepLabel = b.filter keepLabel := by
  induction a generalizing b with
  | nil =>
    rw [histogramLabelsEqual, dropWhile_isEmpty_iff]
    simp
  | cons x a ih =>
    rw [histogramLabelsEqual]
    by_cases hx : isRoutingLabel x = true
    · rw [if_pos hx, List.filter_cons, ih]
      simp [keepLabel, hx]
    · simp at hx
      rw [if_neg (by simp [hx])]
      rw [List.filter_cons]
      have hk : keepLabel x = true := by simp [keepLabel, hx]
      rw [hk]
      rw [← filter_keep_dropWhile b]
      cases hd : b.dropWhile isRoutingLabel with
      | nil => simp
      | cons y b' =>
        have hy : isRoutingLabel y = false := dropWhile_head_not b y b' hd
        rw [List.filter_cons]
        have hky : keepLabel y = true := by simp [keepLabel, hy]
        rw [hky]
        simp [ih]

/-! ## Helper lemmas: sorting -/

theorem insertPair_perm (p : F × Int) (l : List (F × Int)) :
    List.Perm (insertPair p l) (p :: l) := by
  induction l with
  | nil => rfl
  | cons q qs ih =>
    rw [insertPair]
    by_cases h : F.lt p.1 q.1 = true
    · rw [if_pos h]
    · rw [if_neg h]
      exact ((ih.cons q).trans (List.Perm.swap p q qs))

theorem sortPairs_perm (l : List (F × Int)) : List.Perm (sortPairs l) l := by
  induction l with
  | nil => rfl
  | cons p ps ih =>
    rw [sortPairs]
    exact (insertPair_perm p (sortPairs ps)).trans (ih.cons p)

theorem F.lt_then_le {a b : F} (h : F.lt a b = true) : F.le a b = true := by
  simp [F.le, h]

theorem F.not_lt_then_le {a b : F} (ha : a.isNaN = false) (hb : b.isNaN = false)
    (h : F.lt a b = false) : F.le b a = true := by
  cases a with
  | nan => simp [F.isNaN] at ha
  | inf s =>
    cases b with
    | nan => simp [F.isNaN] at hb
    | inf t =>
      cases s <;> cases t <;> simp_all [F.lt, F.le, F.feq]
    | fin q =>
      cases s <;> simp_all [F.lt, F.le, F.feq]
  | fin qa =>
    cases b with
    | nan => simp [F.isNaN] at hb
    | inf t =>
      cases t <;> simp_all [F.lt, F.le, F.feq]
    | fin qb =>
      simp only [F.lt, decide_eq_true_eq, decide_eq_false_iff_not, not_lt] at h
      rcases lt_or_eq_of_le h with hlt | heq
      · simp [F.le, F.lt, hlt]
      · simp [F.le, F.feq, heq]

theorem chain_insertPair (R : F × Int → F × Int → Prop)
    (hR : R = fun p q => F.le p.1 q.1 = true)
    (l : List (F × Int)) (p : F × Int)
    (hl : ∀ q ∈ l, q.1.isNaN = false) (hp : p.1.isNaN = false)
    (hc : List.Chain' R l) : List.Chain' R (insertPair p l) := by
  induction l with
  | nil => simp [insertPair]
  | cons q qs ih =>
    rw [insertPair]
    by_cases h : F.lt p.1 q.1 = true
    · rw [if_pos h]
      exact List.Chain'.cons (by rw [hR]; exact F.lt_then_le h) hc
    · rw [if_neg h]
      have hq : q.1.isNaN = false := hl q (List.mem_cons_self q qs)
      have hqs : ∀ r ∈ qs, r.1.isNaN = false := fun r hr => hl r (List.mem_cons_of_mem q hr)
      have hcqs : List.Chain' R qs := hc.tail
      refine List.chain'_cons'.mpr ⟨?_, ih hqs hcqs⟩
      intro y hy
      cases qs with
      | nil =>
        simp [insertPair] at hy
        subst hy
        rw [hR]
        exact F.not_lt_then_le hp hq (by simpa using h)
      | cons r rs =>
        rw [insertPair] at hy
        by_cases h2 : F.lt p.1 r.1 = true
        · rw [if_pos h2] at hy
          simp at hy
          subst hy
          rw [hR]
          exact F.not_lt_then_le hp hq (by simpa using h)
        · rw [if_neg h2] at hy
          simp at hy
          subst hy
          exact (List.chain'_cons.mp hc).1

theorem chain_sortPairs (l : List (F × Int)) (hl : ∀ q ∈ l, q.1.isNaN = false) :
    List.Chain' (fun p q : F × Int => F.le p.1 q.1 = true) (sortPairs l) := by
  induction l with
  | nil => simp [sortPairs]
  | cons p ps ih =>
    rw [sortPairs]
    have hps : ∀ q ∈ ps, q.1.isNaN = false := fun q hq => hl q (List.mem_cons_of_mem p hq)
    refine chain_insertPair _ rfl _ p ?_ (hl p (List.mem_cons_self p ps)) (ih hps)
    intro q hq
    exact hps q ((sortPairs_perm ps).mem_iff.mp hq)

/-! ## Helper lemmas: the distribution walk -/

/-- The timestamp discipline of the `Loop`: it consumes `Δ` leading samples,
and every consumed sample that matches the family carries one shared
timestamp `t0` (which, when the loop is entered with `i > 0`, is the
incoming `lastTimestamp`). -/
theorem walk_timestamps (dir : SeriesDir) (baseName : Str) (matchLset : List Label) :
    ∀ (samples : List RefSample) (i : Nat) (st : WalkState),
    ∃ Δ t0, Δ ≤ samples.length ∧
      (walk dir baseName matchLset samples i st).1.consumed = st.consumed + Δ ∧
      (0 < i → t0 = st.lastTimestamp) ∧
      ∀ (j : Nat) (hj : j < samples.length), j < Δ →
        famMatch dir baseName matchLset (samples.get ⟨j, hj⟩) = true →
        (samples.get ⟨j, hj⟩).t = t0 := by
  intro samples
  induction samples with
  | nil =>
    intro i st
    exact ⟨0, st.lastTimestamp, by simp, by simp [walk], fun _ => rfl, by simp⟩
  | cons s rest ih =>
    intro i st
    rcases hg : dir.get s.ref with _ | _ | e
    · -- directory error: loop aborts, nothing consumed
      refine ⟨0, st.lastTimestamp, by simp, ?_, fun _ => rfl, by simp⟩
      simp [walk, hg]
    · -- lookup miss: consume and continue
      obtain ⟨Δ, t0, hlen, hcons, hlast, hall⟩ :=
        ih (i + 1) { st with trace := st.trace ++ [DirCall.get s.ref], consumed := st.consumed + 1 }
      refine ⟨Δ + 1, t0, by simpa using Nat.succ_le_succ hlen, ?_, ?_, ?_⟩
      · simp only [walk, hg]
        simpa [Nat.add_comm, Nat.add_assoc, Nat.add_left_comm] using hcons
      · intro _
        exact hlast (Nat.succ_pos i)
      · intro j hj hΔ hfam
        match j with
        | 0 => simp [famMatch, hg] at hfam
        | j' + 1 =>
          exact hall j' (by simpa using hj) (by omega) hfam
    · -- lookup hit
      by_cases hm : (baseName.isPrefixOf (getLabel e.lset nameName)
          && histogramLabelsEqual e.lset matchLset) = true
      · by_cases ht : (decide (i > 0) && !(s.t == st.lastTimestamp)) = true
        · -- timestamp mismatch: break, nothing consumed here
          refine ⟨0, st.lastTimestamp, by simp, ?_, fun _ => rfl, by simp⟩
          simp [walk, hg, hm, ht]
        · -- continue into the suffix dispatch; every consuming branch adds one
          have htt : 0 < i → s.t = st.lastTimestamp := by
            intro hi
            by_contra hne
            exact ht (by simp [hi, hne])
          have key : ∀ st' : WalkState, st'.consumed = st.consumed + 1 →
              st'.lastTimestamp = s.t →
              ∃ Δ t0, Δ ≤ (s :: rest).length ∧
                (walk dir baseName matchLset rest (i + 1) st').1.consumed = st.consumed + Δ ∧
                (0 < i → t0 = st.lastTimestamp) ∧
                ∀ (j : Nat) (hj : j < (s :: rest).length), j < Δ →
                  famMatch dir baseName matchLset ((s :: rest).get ⟨j, hj⟩) = true →
                  ((s :: rest).get ⟨j, hj⟩).t = t0 := by
            intro st' hc hlastT
            obtain ⟨Δ, t0, hlen, hcons, hlast, hall⟩ := ih (i + 1) st'
            have ht0 : t0 = s.t := by rw [hlast (Nat.succ_pos i), hlastT]
            refine ⟨Δ + 1, t0, by simpa using Nat.succ_le_succ hlen, ?_, ?_, ?_⟩
            · rw [hcons, hc]; omega
            · intro hi; rw [ht0, htt hi]
            · intro j hj hΔ hfam
              match j with
              | 0 => simpa using ht0.symm
              | j' + 1 =>
                exact hall j' (by simpa using hj) (by omega) hfam
          by_cases h1 : (getLabel e.lset nameName).drop baseName.length = metricSuffixSum
          · simp only [walk, hg, hm, ht]
            simp only [h1, if_pos rfl, if_true, Bool.not_true, Bool.false_eq_true, if_false]
            exact key _ (by simp) (by simp)
          · by_cases h2 : (getLabel e.lset nameName).drop baseName.length = metricSuffixCount
            · simp only [walk, hg, hm, ht]
              simp only [h1, h2, if_false, if_pos rfl, if_true]
              exact key _ (by simp) (by simp)
            · by_cases h3 : (getLabel e.lset nameName).drop baseName.length = metricSuffixBucket
              · rcases hpf : parseFloat (getLabel e.lset leName) with _ | u
                · simp only [walk, hg, hm, ht]
                  simp only [h1, h2, h3, if_false, if_pos rfl, if_true, hpf]
                  exact key _ (by simp) (by simp)
                · simp only [walk, hg, hm, ht]
                  simp only [h1, h2, h3, if_false, if_pos rfl, if_true, hpf]
                  exact key _ (by simp) (by simp)
              · -- unrecognized suffix: `break Loop`, nothing consumed here
                refine ⟨0, st.lastTimestamp, by simp, ?_, fun _ => rfl, by simp⟩
                simp [walk, hg, hm, ht, h1, h2, h3]
      · -- foreign series: break, nothing consumed here
        refine ⟨0, st.lastTimestamp, by simp, ?_, fun _ => rfl, by simp⟩
        simp [walk, hg, hm]

/-- The scratch `bounds` and `values` grow in lockstep. -/
theorem walk_parallel (dir : SeriesDir) (baseName : Str) (matchLset : List Label) :
    ∀ (samples : List RefSample) (i : Nat) (st : WalkState),
    st.bounds.length = st.values.length →
    (walk dir baseName matchLset samples i st).1.bounds.length =
      (walk dir baseName matchLset samples i st).1.values.length := by
  intro samples
  induction samples with
  | nil => intro i st h; simpa [walk] using h
  | cons s rest ih =>
    intro i st h
    rcases hg : dir.get s.ref with _ | _ | e
    · simpa [walk, hg] using h
    · simp only [walk, hg]
      exact ih (i + 1) _ (by simpa using h)
    · by_cases hm : (baseName.isPrefixOf (getLabel e.lset nameName)
          && histogramLabelsEqual e.lset matchLset) = true
      · by_cases ht : (decide (i > 0) && !(s.t == st.lastTimestamp)) = true
        · simpa [walk, hg, hm, ht] using h
        · by_cases h1 : (getLabel e.lset nameName).drop baseName.length = metricSuffixSum
          · simp only [walk, hg, hm, ht, h1, if_pos rfl, if_true, Bool.not_true,
              Bool.false_eq_true, if_false]
            exact ih (i + 1) _ (by simpa using h)
          · by_cases h2 : (getLabel e.lset nameName).drop baseName.length = metricSuffixCount
            · simp only [walk, hg, hm, ht, h1, h2, if_false, if_pos rfl, if_true]
              exact ih (i + 1) _ (by simpa using h)
            · by_cases h3 : (getLabel e.lset nameName).drop baseName.length = metricSuffixBucket
              · rcases hpf : parseFloat (getLabel e.lset leName) with _ | u
                · simp only [walk, hg, hm, ht, h1, h2, h3, if_false, if_pos rfl, if_true, hpf]
                  exact ih (i + 1) _ (by simpa using h)
                · simp only [walk, hg, hm, ht, h1, h2, h3, if_false, if_pos rfl, if_true, hpf]
                  exact ih (i + 1) _ (by simpa using h)
              · simpa [walk, hg, hm, ht, h1, h2, h3] using h
      · simpa [walk, hg, hm] using h

/-- Every return of `buildDistribution` hands back a suffix of its input,
obtained by dropping the consumed prefix (`0` on the error path). -/
theorem buildDistribution_rest_drop (dir : SeriesDir) (baseName : Str)
    (matchLset : List Label) (samples : List RefSample) :
    ∃ c, (buildDistribution dir baseName matchLset samples).rest = samples.drop c := by
  unfold buildDistribution
  by_cases he : (walk dir baseName matchLset samples 0 initWalkState).2 = true
  · exact ⟨0, by simp [he]⟩
  · by_cases hs : ((walk dir baseName matchLset samples 0 initWalkState).1.skip ||
        (walk dir baseName matchLset samples 0 initWalkState).1.resetTimestamp == 0) = true
    · exact ⟨(walk dir baseName matchLset samples 0 initWalkState).1.consumed, by simp [he, hs]⟩
    · exact ⟨(walk dir baseName matchLset samples 0 initWalkState).1.consumed, by simp [he, hs]⟩

/-- On the error path `buildDistribution` reports the full original stream
and no distribution. -/
theorem buildDistribution_err_shape (dir : SeriesDir) (baseName : Str)
    (matchLset : List Label) (samples : List RefSample)
    (h : (buildDistribution dir baseName matchLset samples).err ≠ none) :
    (buildDistribution dir baseName matchLset samples).rest = samples ∧
    (buildDistribution dir baseName matchLset samples).dist = none := by
  unfold buildDistribution at h ⊢
  by_cases he : (walk dir baseName matchLset samples 0 initWalkState).2 = true
  · simp [he]
  · by_cases hs : ((walk dir baseName matchLset samples 0 initWalkState).1.skip ||
        (walk dir baseName matchLset samples 0 initWalkState).1.resetTimestamp == 0) = true
    · simp [he, hs] at h
    · simp [he, hs] at h

/-- On the non-error paths `buildDistribution` reports the stream with the
consumed prefix dropped. -/
theorem buildDistribution_ok_rest (dir : SeriesDir) (baseName : Str)
    (matchLset : List Label) (samples : List RefSample)
    (h : (buildDistribution dir baseName matchLset samples).err = none) :
    (buildDistribution dir baseName matchLset samples).rest =
      samples.drop (walk dir baseName matchLset samples 0 initWalkState).1.consumed := by
  unfold buildDistribution at h ⊢
  by_cases he : (walk dir baseName matchLset samples 0 initWalkState).2 = true
  · simp [he] at h
  · by_cases hs : ((walk dir baseName matchLset samples 0 initWalkState).1.skip ||
        (walk dir baseName matchLset samples 0 initWalkState).1.resetTimestamp == 0) = true
    · simp [he, hs]
    · simp [he, hs]

/-- When `buildDistribution` emits, the emitted record is exactly the one
assembled from the final walk state: truncated `count`, guarded `mean`, and
the lowered buckets of the sorted scratch pairs. -/
theorem buildDistribution_emit (dir : SeriesDir) (baseName : Str)
    (matchLset : List Label) (samples : List RefSample) (d : Dist)
    (h : (buildDistribution dir baseName matchLset samples).dist = some d) :
    d = (let st := (walk dir baseName matchLset samples 0 initWalkState).1
      let mean := if F.lt (F.fin 0) st.count then st.sum.div st.count else F.fin 0
      let lb := lowerBuckets mean (sortPairs (st.bounds.zip st.values)) (F.fin 0) 0 [] [] (F.fin 0)
      (⟨st.count.toInt64, mean, lb.2.2, lb.1, lb.2.1⟩ : Dist)) := by
  unfold buildDistribution at h
  by_cases he : (walk dir baseName matchLset samples 0 initWalkState).2 = true
  · simp [he] at h
  · by_cases hs : ((walk dir baseName matchLset samples 0 initWalkState).1.skip ||
        (walk dir baseName matchLset samples 0 initWalkState).1.resetTimestamp == 0) = true
    · simp [he, hs] at h
    · simp only [he, hs, if_false, Bool.false_eq_true, if_neg, Option.some.injEq] at h
      exact h.symm

/-- The lowering loop emits one delta per bucket. -/
theorem lowerBuckets_values_length (mean : F) :
    ∀ (pairs : List (F × Int)) (lower : F) (prev : Int)
      (bAcc : List F) (vAcc : List Int) (dev : F),
    (lowerBuckets mean pairs lower prev bAcc vAcc dev).2.1.length = vAcc.length + pairs.length := by
  intro pairs
  induction pairs with
  | nil => intro lower prev bAcc vAcc dev; simp [lowerBuckets]
  | cons p rest ih =>
    intro lower prev bAcc vAcc dev
    rcases p with ⟨u, c⟩
    rw [lowerBuckets]
    rw [ih]
    simp
    omega

/-- The lowering loop emits one bound per bucket whose upper bound is not
`+Inf`. -/
theorem lowerBuckets_bounds_length (mean : F) :
    ∀ (pairs : List (F × Int)) (lower : F) (prev : Int)
      (bAcc : List F) (vAcc : List Int) (dev : F),
    (lowerBuckets mean pairs lower prev bAcc vAcc dev).1.length =
      bAcc.length + (pairs.countP (fun p => !p.1.isPosInf)) := by
  intro pairs
  induction pairs with
  | nil => intro lower prev bAcc vAcc dev; simp [lowerBuckets]
  | cons p rest ih =>
    intro lower prev bAcc vAcc dev
    rcases p with ⟨u, c⟩
    rw [lowerBuckets, ih, List.countP_cons]
    by_cases hu : u.isPosInf = true
    · simp [hu]
    · simp [hu]
      omega

/-- The emitted deltas telescope: their sum is the last cumulative value
(`prev` when there are no buckets). -/
theorem lowerBuckets_sum (mean : F) :
    ∀ (pairs : List (F × Int)) (lower : F) (prev : Int)
      (bAcc : List F) (vAcc : List Int) (dev : F),
    (lowerBuckets mean pairs lower prev bAcc vAcc dev).2.1.sum =
      vAcc.sum + ((pairs.map Prod.snd).getLastD prev - prev) := by
  intro pairs
  induction pairs with
  | nil => intro lower prev bAcc vAcc dev; simp [lowerBuckets]
  | cons p rest ih =>
    intro lower prev bAcc vAcc dev
    rcases p with ⟨u, c⟩
    rw [lowerBuckets, ih, List.map_cons, List.getLastD_cons, List.sum_append]
    simp
    omega

/-! ## Helper lemmas: the paths through `next` -/

theorem finish_err (dir : SeriesDir) (e : Entry) (s : RefSample)
    (rest : List RefSample) (rt : Int) (p : Point) (tr : List DirCall) :
    (finish dir e s rest rt p tr).err = none := by
  unfold finish
  by_cases h : dir.updateSampleInterval e.hash rt s.t = true <;> simp [h]

theorem finish_rest (dir : SeriesDir) (e : Entry) (s : RefSample)
    (rest : List RefSample) (rt : Int) (p : Point) (tr : List DirCall) :
    (finish dir e s rest rt p tr).rest = rest := by
  unfold finish
  by_cases h : dir.updateSampleInterval e.hash rt s.t = true <;> simp [h]

theorem finish_point (dir : SeriesDir) (e : Entry) (s : RefSample)
    (rest : List RefSample) (rt : Int) (p : Point) (tr : List DirCall)
    (ts : TimeSeries) (h : (finish dir e s rest rt p tr).point = some ts) :
    ts = ⟨e.proto, [p]⟩ := by
  unfold finish at h
  by_cases hg : dir.updateSampleInterval e.hash rt s.t = true
  · simp [hg] at h
    exact h.symm
  · simp [hg] at h

theorem next_nan_case (dir : SeriesDir) (s : RefSample) (tail : List RefSample)
    (hv : s.v.isNaN = true) : next dir s tail = ⟨none, 0, tail, none, []⟩ := by
  simp [next, hv]

theorem next_get_err_case (dir : SeriesDir) (s : RefSample) (tail : List RefSample)
    (hv : s.v.isNaN = false) (hg : dir.get s.ref = GetRes.err) :
    next dir s tail = ⟨none, 0, s :: tail, some Err.getSeries, [DirCall.get s.ref]⟩ := by
  simp [next, hv, hg]

theorem next_get_miss_case (dir : SeriesDir) (s : RefSample) (tail : List RefSample)
    (hv : s.v.isNaN = false) (hg : dir.get s.ref = GetRes.miss) :
    next dir s tail = ⟨none, 0, tail, none, [DirCall.get s.ref]⟩ := by
  simp [next, hv, hg]

theorem next_unexported_case (dir : SeriesDir) (s : RefSample) (tail : List RefSample)
    (e : Entry) (hv : s.v.isNaN = false) (hg : dir.get s.ref = GetRes.hit e)
    (he : e.exported = false) :
    next dir s tail = ⟨none, 0, tail, none, baseTrace e s⟩ := by
  simp [next, hv, hg, he, baseTrace]

theorem next_counter_skip_case (dir : SeriesDir) (s : RefSample) (tail : List RefSample)
    (e : Entry) (hv : s.v.isNaN = false) (hg : dir.get s.ref = GetRes.hit e)
    (he : e.exported = true) (hm : e.mtype = MetricType.counter)
    (hok : (dir.getResetAdjusted s.ref s.t s.v).2.2 = false) :
    next dir s tail = ⟨none, 0, tail, none,
      baseTrace e s ++ [DirCall.getResetAdjusted s.ref s.t s.v]⟩ := by
  simp [next, hv, hg, he, hm, hok, baseTrace]

theorem next_counter_emit_case (dir : SeriesDir) (s : RefSample) (tail : List RefSample)
    (e : Entry) (hv : s.v.isNaN = false) (hg : dir.get s.ref = GetRes.hit e)
    (he : e.exported = true) (hm : e.mtype = MetricType.counter)
    (hok : (dir.getResetAdjusted s.ref s.t s.v).2.2 = true) :
    next dir s tail = finish dir e s tail (dir.getResetAdjusted s.ref s.t s.v).1
      ⟨some (getTimestamp (dir.getResetAdjusted s.ref s.t s.v).1), getTimestamp s.t,
        some (buildTypedValue e.vtype (dir.getResetAdjusted s.ref s.t s.v).2.1)⟩
      (baseTrace e s ++ [DirCall.getResetAdjusted s.ref s.t s.v]) := by
  simp [next, hv, hg, he, hm, hok, baseTrace]

theorem next_gauge_case (dir : SeriesDir) (s : RefSample) (tail : List RefSample)
    (e : Entry) (hv : s.v.isNaN = false) (hg : dir.get s.ref = GetRes.hit e)
    (he : e.exported = true) (hm : e.mtype = MetricType.gauge) :
    next dir s tail = finish dir e s tail 0
      ⟨none, getTimestamp s.t, some (buildTypedValue e.vtype s.v)⟩ (baseTrace e s) := by
  simp [next, hv, hg, he, hm, baseTrace]

theorem next_unknown_case (dir : SeriesDir) (s : RefSample) (tail : List RefSample)
    (e : Entry) (hv : s.v.isNaN = false) (hg : dir.get s.ref = GetRes.hit e)
    (he : e.exported = true) (hm : e.mtype = MetricType.unknown) :
    next dir s tail = finish dir e s tail 0
      ⟨none, getTimestamp s.t, some (buildTypedValue e.vtype s.v)⟩ (baseTrace e s) := by
  simp [next, hv, hg, he, hm, baseTrace]

theorem next_summary_sum_skip_case (dir : SeriesDir) (s : RefSample) (tail : List RefSample)
    (e : Entry) (hv : s.v.isNaN = false) (hg : dir.get s.ref = GetRes.hit e)
    (he : e.exported = true) (hm : e.mtype = MetricType.summary)
    (hs : e.suffix = metricSuffixSum)
    (hok : (dir.getResetAdjusted s.ref s.t s.v).2.2 = false) :
    next dir s tail = ⟨none, 0, tail, none,
      baseTrace e s ++ [DirCall.getResetAdjusted s.ref s.t s.v]⟩ := by
  simp [next, hv, hg, he, hm, hs, hok, baseTrace]

theorem next_summary_sum_emit_case (dir : SeriesDir) (s : RefSample) (tail : List RefSample)
    (e : Entry) (hv : s.v.isNaN = false) (hg : dir.get s.ref = GetRes.hit e)
    (he : e.exported = true) (hm : e.mtype = MetricType.summary)
    (hs : e.suffix = metricSuffixSum)
    (hok : (dir.getResetAdjusted s.ref s.t s.v).2.2 = true) :
    next dir s tail = finish dir e s tail (dir.getResetAdjusted s.ref s.t s.v).1
      ⟨some (getTimestamp (dir.getResetAdjusted s.ref s.t s.v).1), getTimestamp s.t,
        some (TypedValue.double (dir.getResetAdjusted s.ref s.t s.v).2.1)⟩
      (baseTrace e s ++ [DirCall.getResetAdjusted s.ref s.t s.v]) := by
  simp [next, hv, hg, he, hm, hs, hok, baseTrace]

theorem next_summary_count_skip_case (dir : SeriesDir) (s : RefSample) (tail : List RefSample)
    (e : Entry) (hv : s.v.isNaN = false) (hg : dir.get s.ref = GetRes.hit e)
    (he : e.exported = true) (hm : e.mtype = MetricType.summary)
    (_hs1 : e.suffix ≠ metricSuffixSum) (hs : e.suffix = metricSuffixCount)
    (hok : (dir.getResetAdjusted s.ref s.t s.v).2.2 = false) :
    next dir s tail = ⟨none, 0, tail, none,
      baseTrace e s ++ [DirCall.getResetAdjusted s.ref s.t s.v]⟩ := by
  simp [next, hv, hg, he, hm, hs, hok, baseTrace,
    show metricSuffixCount ≠ metricSuffixSum from by decide]

theorem next_summary_count_emit_case (dir : SeriesDir) (s : RefSample) (tail : List RefSample)
    (e : Entry) (hv : s.v.isNaN = false) (hg : dir.get s.ref = GetRes.hit e)
    (he : e.exported = true) (hm : e.mtype = MetricType.summary)
    (_hs1 : e.suffix ≠ metricSuffixSum) (hs : e.suffix = metricSuffixCount)
    (hok : (dir.getResetAdjusted s.ref s.t s.v).2.2 = true) :
    next dir s tail = finish dir e s tail (dir.getResetAdjusted s.ref s.t s.v).1
      ⟨some (getTimestamp (dir.getResetAdjusted s.ref s.t s.v).1), getTimestamp s.t,
        some (TypedValue.i64 (dir.getResetAdjusted s.ref s.t s.v).2.1.toInt64)⟩
      (baseTrace e s ++ [DirCall.getResetAdjusted s.ref s.t s.v]) := by
  simp [next, hv, hg, he, hm, hs, hok, baseTrace,
    show metricSuffixCount ≠ metricSuffixSum from by decide]

theorem next_summary_quantile_case (dir : SeriesDir) (s : RefSample) (tail : List RefSample)
    (e : Entry) (hv : s.v.isNaN = false) (hg : dir.get s.ref = GetRes.hit e)
    (he : e.exported = true) (hm : e.mtype = MetricType.summary)
    (_hs1 : e.suffix ≠ metricSuffixSum) (_hs2 : e.suffix ≠ metricSuffixCount)
    (hs : e.suffix = ([] : Str)) :
    next dir s tail = finish dir e s tail 0
      ⟨none, getTimestamp s.t, some (TypedValue.double s.v)⟩ (baseTrace e s) := by
  simp [next, hv, hg, he, hm, hs, baseTrace,
    show metricSuffixSum ≠ ([] : Str) from by decide,
    show metricSuffixCount ≠ ([] : Str) from by decide]

theorem next_summary_bad_case (dir : SeriesDir) (s : RefSample) (tail : List RefSample)
    (e : Entry) (hv : s.v.isNaN = false) (hg : dir.get s.ref = GetRes.hit e)
    (he : e.exported = true) (hm : e.mtype = MetricType.summary)
    (hs1 : e.suffix ≠ metricSuffixSum) (hs2 : e.suffix ≠ metricSuffixCount)
    (hs3 : e.suffix ≠ ([] : Str)) :
    next dir s tail = ⟨none, 0, tail, some (Err.unexpectedSuffix e.suffix), baseTrace e s⟩ := by
  simp [next, hv, hg, he, hm, hs1, hs2, hs3, baseTrace]

theorem next_histogram_emit_case (dir : SeriesDir) (s : RefSample) (tail : List RefSample)
    (e : Entry) (d : Dist) (hv : s.v.isNaN = false) (hg : dir.get s.ref = GetRes.hit e)
    (he : e.exported = true) (hm : e.mtype = MetricType.histogram)
    (hd : (buildDistribution dir e.metricName e.lset (s :: tail)).dist = some d)
    (hbe : (buildDistribution dir e.metricName e.lset (s :: tail)).err = none) :
    next dir s tail = finish dir e s (buildDistribution dir e.metricName e.lset (s :: tail)).rest
      (buildDistribution dir e.metricName e.lset (s :: tail)).resetTimestamp
      ⟨some (getTimestamp (buildDistribution dir e.metricName e.lset (s :: tail)).resetTimestamp),
        getTimestamp s.t, some (TypedValue.dist d)⟩
      (baseTrace e s ++ (buildDistribution dir e.metricName e.lset (s :: tail)).trace) := by
  simp [next, hv, hg, he, hm, hd, hbe, baseTrace]

theorem next_histogram_none_case (dir : SeriesDir) (s : RefSample) (tail : List RefSample)
    (e : Entry) (hv : s.v.isNaN = false) (hg : dir.get s.ref = GetRes.hit e)
    (he : e.exported = true) (hm : e.mtype = MetricType.histogram)
    (hd : (buildDistribution dir e.metricName e.lset (s :: tail)).dist = none) :
    next dir s tail = ⟨none, 0, (buildDistribution dir e.metricName e.lset (s :: tail)).rest,
      (buildDistribution dir e.metricName e.lset (s :: tail)).err,
      baseTrace e s ++ (buildDistribution dir e.metricName e.lset (s :: tail)).trace⟩ := by
  rcases hbe : (buildDistribution dir e.metricName e.lset (s :: tail)).err with _ | er
  · simp [next, hv, hg, he, hm, hd, hbe, baseTrace]
  · simp [next, hv, hg, he, hm, hd, hbe, baseTrace]

theorem next_other_case (dir : SeriesDir) (s : RefSample) (tail : List RefSample)
    (e : Entry) (u : Str) (hv : s.v.isNaN = false) (hg : dir.get s.ref = GetRes.hit e)
    (he : e.exported = true) (hm : e.mtype = MetricType.other u) :
    next dir s tail =
      ⟨none, 0, tail, some (Err.unexpectedType (MetricType.other u)), baseTrace e s⟩ := by
  simp [next, hv, hg, he, hm, baseTrace]

/-- Each pair either has a `+Inf` bound or not: the two counts partition the
length. -/
theorem countP_isPosInf_split (l : List (F × Int)) :
    l.countP (fun p => !p.1.isPosInf) + l.countP (F.isPosInf ∘ Prod.fst) = l.length := by
  induction l with
  | nil => rfl
  | cons x xs ih =>
    by_cases h : x.1.isPosInf = true
    · simp only [List.countP_cons, h, Function.comp]
      simp
      omega
    · simp only [List.countP_cons, h, Function.comp]
      simp [h]
      omega

/-! ## The claims -/

/-- Claim C4: for every pair of label sets `a` and `b`, `histogramLabelsEqual
a b` returns true if and only if the subsequences obtained by removing every
label named `le` or `__name__` are equal as lists of `(name, value)` pairs
(pairwise equal and of the same length).  This holds for all label lists, in
particular for the name-sorted ones the claim quantifies over. -/
theorem claim_C4_histogramLabelsEqual_iff (a b : List Label) :
    histogramLabelsEqual a b = true ↔ a.filter keepLabel = b.filter keepLabel :=
  histogramLabelsEqual_iff_filter a b

/-- Claim C7: `stripComplexMetricSuffix` returns `(prefix, suffix, true)`
where `suffix` is the first matching member of the ordered list
`[_bucket, _count, _sum, _total]` and `prefix` is the name with that suffix
removed; if none matches it returns `(name, "", false)`.  In particular
`foo_count_bucket` classifies with suffix `_bucket`. -/
theorem claim_C7_stripComplexMetricSuffix :
    (∀ name : Str, stripComplexMetricSuffix name =
      (match [metricSuffixBucket, metricSuffixCount, metricSuffixSum,
          metricSuffixTotal].find? (fun suf => suf.isSuffixOf name) with
        | some suf => (name.take (name.length - suf.length), suf, true)
        | none => (name, [], false)))
    ∧ stripComplexMetricSuffix "foo_count_bucket".toList
        = ("foo_count".toList, metricSuffixBucket, true) := by
  constructor
  · intro name
    unfold stripComplexMetricSuffix
    by_cases h1 : metricSuffixBucket.isSuffixOf name = true
    · simp [List.find?, h1]
    · by_cases h2 : metricSuffixCount.isSuffixOf name = true
      · simp [List.find?, h1, h2]
      · by_cases h3 : metricSuffixSum.isSuffixOf name = true
        · simp [List.find?, h1, h2, h3]
        · by_cases h4 : metricSuffixTotal.isSuffixOf name = true
          · simp [List.find?, h1, h2, h3, h4]
          · simp [List.find?, h1, h2, h3, h4]
  · decide

/-- Claim C9: when the first sample's value is NaN, `next` returns
`(nil, 0, stream[1:], nil)` with an empty directory-call trace — no `get`,
no `getResetAdjusted`, no `updateSampleInterval`, no tracker call — and the
result is literally the same for every directory state. -/
theorem claim_C9_nan_frame (dir : SeriesDir) (s : RefSample) (tail : List RefSample)
    (hv : s.v.isNaN = true) :
    next dir s tail = ⟨none, 0, tail, none, []⟩ :=
  next_nan_case dir s tail hv

theorem claim_C9_nan_frame_witness :
    next dirMiss ⟨1, 0, F.nan⟩ [] = ⟨none, 0, [], none, []⟩ :=
  claim_C9_nan_frame dirMiss ⟨1, 0, F.nan⟩ [] (by decide)

/-- Claim C10 (amended): sorting the scratch distribution permutes the
`(bound, cumulative count)` pairs — moving bounds and values by the same
permutation, so their multiset is exactly preserved — and, provided no bound
is NaN, the resulting bounds are in ascending (non-decreasing) order under
the IEEE comparison.  (A NaN bound — reachable via a bucket label
`le="NaN"`, which `strconv.ParseFloat` accepts — breaks the strict-weak-order
contract of `sort.Sort`, and ascending order fails; see the
counterexample.) -/
theorem claim_C10_sort_scratch (bounds : List F) (values : List Int) :
    List.Perm (sortPairs (bounds.zip values)) (bounds.zip values)
    ∧ ((∀ p ∈ bounds.zip values, (p : F × Int).1.isNaN = false) →
        List.Chain' (fun a b => F.le a b = true)
          ((sortPairs (bounds.zip values)).map Prod.fst)) := by
  constructor
  · exact sortPairs_perm _
  · intro hnn
    rw [List.chain'_map]
    exact chain_sortPairs _ hnn

theorem claim_C10_sort_scratch_counterexample :
    (sortPairs ([F.nan, F.fin 1].zip [10, 20])).map Prod.fst = [F.fin 1, F.nan]
    ∧ F.le (F.fin 1) F.nan = false
    ∧ ¬ List.Chain' (fun a b => F.le a b = true)
        ((sortPairs ([F.nan, F.fin 1].zip [10, 20])).map Prod.fst) := by
  refine ⟨by decide, by decide, ?_⟩
  intro h
  rw [show (sortPairs ([F.nan, F.fin 1].zip [10, 20])).map Prod.fst
      = [F.fin 1, F.nan] from by decide] at h
  exact absurd (List.chain'_cons.mp h).1 (by decide)

theorem claim_C10_sort_scratch_witness :
    List.Chain' (fun a b => F.le a b = true)
      ((sortPairs ([F.fin 2, F.fin 1].zip [10, 20])).map Prod.fst) :=
  (claim_C10_sort_scratch [F.fin 2, F.fin 1] [10, 20]).2 (by decide)

/-- Claim C8: `buildDistribution` divides `sum/count` only under the guard
`count > 0`; whenever a distribution is emitted from a walk whose
accumulated `count` is zero — in particular the all-buckets-empty case —
the emitted `mean` is exactly 0 (and hence not NaN), and the emitted
`count` field is 0. -/
theorem claim_C8_zero_count_mean (dir : SeriesDir) (baseName : Str)
    (matchLset : List Label) (samples : List RefSample) (d : Dist)
    (h : (buildDistribution dir baseName matchLset samples).dist = some d)
    (hc : (walk dir baseName matchLset samples 0 initWalkState).1.count = F.fin 0) :
    d.mean = F.fin 0 ∧ d.mean.isNaN = false ∧ d.count = 0 := by
  have hd := buildDistribution_emit dir baseName matchLset samples d h
  rw [hd]
  simp only [hc]
  refine ⟨?_, ?_, ?_⟩
  · simp [show F.lt (F.fin 0) (F.fin 0) = false from by decide]
  · simp [show F.lt (F.fin 0) (F.fin 0) = false from by decide, F.isNaN]
  · simp [show F.toInt64 (F.fin 0) = 0 from by decide]

theorem claim_C8_zero_count_mean_witness :
    ((buildDistribution dirCount "foo".toList entCount.lset
        [⟨1, 1000, F.fin 0⟩]).dist = some ⟨0, F.fin 0, F.fin 0, [], []⟩)
    ∧ ((F.fin 0 : F) = F.fin 0 ∧ (F.fin 0).isNaN = false ∧ (0 : Int) = 0) :=
  ⟨by decide, claim_C8_zero_count_mean dirCount "foo".toList entCount.lset
      [⟨1, 1000, F.fin 0⟩] ⟨0, F.fin 0, F.fin 0, [], []⟩ (by decide) (by decide)⟩

/-- Claim C3: in `buildDistribution`'s walk, the consumed prefix never mixes
two scrape timestamps for one family: on every non-error return the
remainder is the input with the consumed prefix dropped, and any two
consumed samples that match the family (directory hit, base-name prefix,
label match) carry the same timestamp.  Consequently a family sample whose
timestamp differs from the first consumed family sample's cannot have been
consumed: the walk stopped before it and left it on the stream. -/
theorem claim_C3_timestamp_break (dir : SeriesDir) (baseName : Str)
    (matchLset : List Label) (samples : List RefSample)
    (h : (buildDistribution dir baseName matchLset samples).err = none) :
    ∃ c, c ≤ samples.length ∧
      (buildDistribution dir baseName matchLset samples).rest = samples.drop c ∧
      ∀ (j k : Nat) (hj : j < samples.length) (hk : k < samples.length),
        j < c → k < c →
        famMatch dir baseName matchLset (samples.get ⟨j, hj⟩) = true →
        famMatch dir baseName matchLset (samples.get ⟨k, hk⟩) = true →
        (samples.get ⟨j, hj⟩).t = (samples.get ⟨k, hk⟩).t := by
  obtain ⟨Δ, t0, hlen, hcons, -, hall⟩ :=
    walk_timestamps dir baseName matchLset samples 0 initWalkState
  have hc0 : (walk dir baseName matchLset samples 0 initWalkState).1.consumed = Δ := by
    simpa [initWalkState] using hcons
  refine ⟨(walk dir baseName matchLset samples 0 initWalkState).1.consumed, by omega,
    buildDistribution_ok_rest dir baseName matchLset samples h, ?_⟩
  intro j k hj hk hjc hkc hfj hfk
  rw [hall j hj (by omega) hfj, hall k hk (by omega) hfk]

theorem claim_C3_timestamp_break_witness :
    ∃ c, c ≤ ([⟨1, 1000, F.fin 7⟩, ⟨2, 1000, F.fin 7⟩] : List RefSample).length ∧
      (buildDistribution dirHistPair "foo".toList entCount.lset
          [⟨1, 1000, F.fin 7⟩, ⟨2, 1000, F.fin 7⟩]).rest
        = ([⟨1, 1000, F.fin 7⟩, ⟨2, 1000, F.fin 7⟩] : List RefSample).drop c ∧
      ∀ (j k : Nat)
        (hj : j < ([⟨1, 1000, F.fin 7⟩, ⟨2, 1000, F.fin 7⟩] : List RefSample).length)
        (hk : k < ([⟨1, 1000, F.fin 7⟩, ⟨2, 1000, F.fin 7⟩] : List RefSample).length),
        j < c → k < c →
        famMatch dirHistPair "foo".toList entCount.lset
          (([⟨1, 1000, F.fin 7⟩, ⟨2, 1000, F.fin 7⟩] : List RefSample).get ⟨j, hj⟩) = true →
        famMatch dirHistPair "foo".toList entCount.lset
          (([⟨1, 1000, F.fin 7⟩, ⟨2, 1000, F.fin 7⟩] : List RefSample).get ⟨k, hk⟩) = true →
        (([⟨1, 1000, F.fin 7⟩, ⟨2, 1000, F.fin 7⟩] : List RefSample).get ⟨j, hj⟩).t
          = (([⟨1, 1000, F.fin 7⟩, ⟨2, 1000, F.fin 7⟩] : List RefSample).get ⟨k, hk⟩).t :=
  claim_C3_timestamp_break dirHistPair "foo".toList entCount.lset
    [⟨1, 1000, F.fin 7⟩, ⟨2, 1000, F.fin 7⟩] (by decide)

/-- Claim C2 (amended): about every distribution emitted by
`buildDistribution`: its bucket-count list always sums to the cumulative
count of the last bucket of the sorted scratch (0 with no buckets) — which
equals the emitted `count` field only when that cumulative agrees with the
truncated `_count` series value — and when the consumed buckets contain
exactly one `+Inf` bound, `len(bucketCounts) = len(explicitBounds) + 1`.
As stated the claim fails (see the counterexample): with no `+Inf` bucket
(e.g. a family with only a `_count` series) the lengths are equal, and the
sum need not equal `count`. -/
theorem claim_C2_distribution_shape (dir : SeriesDir) (baseName : Str)
    (matchLset : List Label) (samples : List RefSample) :
    (((walk dir baseName matchLset samples 0 initWalkState).1.bounds.countP F.isPosInf = 1) →
      ((buildDistribution dir baseName matchLset samples).dist.map
          fun d => d.bucketCounts.length)
        = ((buildDistribution dir baseName matchLset samples).dist.map
          fun d => d.bounds.length + 1))
    ∧ ((buildDistribution dir baseName matchLset samples).dist.map
        fun d => d.bucketCounts.sum)
      = ((buildDistribution dir baseName matchLset samples).dist.map
        fun _d =>
          ((sortPairs ((walk dir baseName matchLset samples 0 initWalkState).1.bounds.zip
              (walk dir baseName matchLset samples 0 initWalkState).1.values)).map
            Prod.snd).getLastD 0) := by
  rcases hd : (buildDistribution dir baseName matchLset samples).dist with _ | d
  · exact ⟨fun _ => rfl, rfl⟩
  · have he := buildDistribution_emit dir baseName matchLset samples d hd
    have hpar : (walk dir baseName matchLset samples 0 initWalkState).1.bounds.length
        = (walk dir baseName matchLset samples 0 initWalkState).1.values.length :=
      walk_parallel dir baseName matchLset samples 0 initWalkState (by simp [initWalkState])
    constructor
    · intro hone
      simp only [Option.map_some']
      congr 1
      rw [he]
      simp only [lowerBuckets_values_length, lowerBuckets_bounds_length, List.length_nil,
        Nat.zero_add]
      -- transport the `+Inf` count through the sort permutation and the zip
      have hperm := sortPairs_perm
        ((walk dir baseName matchLset samples 0 initWalkState).1.bounds.zip
          (walk dir baseName matchLset samples 0 initWalkState).1.values)
      have hcnt : ((sortPairs ((walk dir baseName matchLset samples 0 initWalkState).1.bounds.zip
            (walk dir baseName matchLset samples 0 initWalkState).1.values)).countP
          (F.isPosInf ∘ Prod.fst))
          = 1 := by
        rw [hperm.countP_eq]
        have hfst : (((walk dir baseName matchLset samples 0 initWalkState).1.bounds.zip
            (walk dir baseName matchLset samples 0 initWalkState).1.values).map Prod.fst)
            = (walk dir baseName matchLset samples 0 initWalkState).1.bounds :=
          List.map_fst_zip _ _ (le_of_eq hpar)
        have hmap := List.countP_map F.isPosInf (Prod.fst : F × Int → F)
          (((walk dir baseName matchLset samples 0 initWalkState).1.bounds.zip
            (walk dir baseName matchLset samples 0 initWalkState).1.values))
        rw [hfst] at hmap
        rw [← hmap, hone]
      have hsum := countP_isPosInf_split
        (sortPairs ((walk dir baseName matchLset samples 0 initWalkState).1.bounds.zip
          (walk dir baseName matchLset samples 0 initWalkState).1.values))
      omega
    · simp only [Option.map_some']
      congr 1
      rw [he]
      simp only [lowerBuckets_sum, List.sum_nil, Int.zero_add, Int.sub_zero]

theorem claim_C2_distribution_shape_counterexample :
    ((buildDistribution dirCount "foo".toList entCount.lset [⟨1, 1000, F.fin 7⟩]).dist.map
        fun d => (d.bucketCounts.length, d.bounds.length, d.bucketCounts.sum, d.count))
      = some (0, 0, 0, 7)
    ∧ ¬ ((0 : Nat) = 0 + 1) ∧ ¬ ((0 : Int) = 7) :=
  ⟨by decide, by decide, by decide⟩

theorem claim_C2_distribution_shape_witness :
    (((buildDistribution dirHistPair "foo".toList entCount.lset
        [⟨1, 1000, F.fin 7⟩, ⟨2, 1000, F.fin 7⟩]).dist.map fun d => d.bucketCounts.length)
      = ((buildDistribution dirHistPair "foo".toList entCount.lset
        [⟨1, 1000, F.fin 7⟩, ⟨2, 1000, F.fin 7⟩]).dist.map fun d => d.bounds.length + 1))
    ∧ (((buildDistribution dirHistPair "foo".toList entCount.lset
        [⟨1, 1000, F.fin 7⟩, ⟨2, 1000, F.fin 7⟩]).dist.map fun d => d.bucketCounts.sum)
      = ((buildDistribution dirHistPair "foo".toList entCount.lset
        [⟨1, 1000, F.fin 7⟩, ⟨2, 1000, F.fin 7⟩]).dist.map fun _d =>
          ((sortPairs ((walk dirHistPair "foo".toList entCount.lset
              [⟨1, 1000, F.fin 7⟩, ⟨2, 1000, F.fin 7⟩] 0 initWalkState).1.bounds.zip
            (walk dirHistPair "foo".toList entCount.lset
              [⟨1, 1000, F.fin 7⟩, ⟨2, 1000, F.fin 7⟩] 0 initWalkState).1.values)).map
            Prod.snd).getLastD 0)) :=
  ⟨(claim_C2_distribution_shape dirHistPair "foo".toList entCount.lset
      [⟨1, 1000, F.fin 7⟩, ⟨2, 1000, F.fin 7⟩]).1 (by decide),
    (claim_C2_distribution_shape dirHistPair "foo".toList entCount.lset
      [⟨1, 1000, F.fin 7⟩, ⟨2, 1000, F.fin 7⟩]).2⟩

/-- Claim C5: every time series returned by `next` carries exactly one point,
whose interval `endTime` is the timestamp utility applied to the consumed
sample's timestamp; and the utility is total — for every `int64` millisecond
value `t`, negative included, it produces `seconds = t/1000` (truncated) and
`nanos = (t%1000)*1_000_000`, which recombine to `t`. -/
theorem claim_C5_point_shape (dir : SeriesDir) (s : RefSample) (tail : List RefSample)
    (ts : TimeSeries) (h : (next dir s tail).point = some ts) :
    (∃ p : Point, ts.points = [p] ∧ p.endTime = getTimestamp s.t)
    ∧ (∀ t : Int, getTimestamp t = ⟨t.tdiv 1000, t.tmod 1000 * 1000000⟩
        ∧ (getTimestamp t).seconds * 1000 + ((getTimestamp t).nanos).tdiv 1000000 = t) := by
  constructor
  · by_cases hv : s.v.isNaN = true
    · rw [next_nan_case dir s tail hv] at h
      exact absurd h (by simp)
    · rw [Bool.not_eq_true] at hv
      rcases hg : dir.get s.ref with _ | _ | e
      · rw [next_get_err_case dir s tail hv hg] at h
        exact absurd h (by simp)
      · rw [next_get_miss_case dir s tail hv hg] at h
        exact absurd h (by simp)
      · by_cases he : e.exported = true
        · rcases hm : e.mtype with _ | _ | _ | _ | _ | u
          · -- counter
            by_cases hok : (dir.getResetAdjusted s.ref s.t s.v).2.2 = true
            · rw [next_counter_emit_case dir s tail e hv hg he hm hok] at h
              have hts := finish_point _ _ _ _ _ _ _ ts h
              subst hts
              exact ⟨_, rfl, rfl⟩
            · rw [Bool.not_eq_true] at hok
              rw [next_counter_skip_case dir s tail e hv hg he hm hok] at h
              exact absurd h (by simp)
          · rw [next_gauge_case dir s tail e hv hg he hm] at h
            have hts := finish_point _ _ _ _ _ _ _ ts h
            subst hts
            exact ⟨_, rfl, rfl⟩
          · rw [next_unknown_case dir s tail e hv hg he hm] at h
            have hts := finish_point _ _ _ _ _ _ _ ts h
            subst hts
            exact ⟨_, rfl, rfl⟩
          · -- summary
            by_cases hs1 : e.suffix = metricSuffixSum
            · by_cases hok : (dir.getResetAdjusted s.ref s.t s.v).2.2 = true
              · rw [next_summary_sum_emit_case dir s tail e hv hg he hm hs1 hok] at h
                have hts := finish_point _ _ _ _ _ _ _ ts h
                subst hts
                exact ⟨_, rfl, rfl⟩
              · rw [Bool.not_eq_true] at hok
                rw [next_summary_sum_skip_case dir s tail e hv hg he hm hs1 hok] at h
                exact absurd h (by simp)
            · by_cases hs2 : e.suffix = metricSuffixCount
              · by_cases hok : (dir.getResetAdjusted s.ref s.t s.v).2.2 = true
                · rw [next_summary_count_emit_case dir s tail e hv hg he hm hs1 hs2 hok] at h
                  have hts := finish_point _ _ _ _ _ _ _ ts h
                  subst hts
                  exact ⟨_, rfl, rfl⟩
                · rw [Bool.not_eq_true] at hok
                  rw [next_summary_count_skip_case dir s tail e hv hg he hm hs1 hs2 hok] at h
                  exact absurd h (by simp)
              · by_cases hs3 : e.suffix = ([] : Str)
                · rw [next_summary_quantile_case dir s tail e hv hg he hm hs1 hs2 hs3] at h
                  have hts := finish_point _ _ _ _ _ _ _ ts h
                  subst hts
                  exact ⟨_, rfl, rfl⟩
                · rw [next_summary_bad_case dir s tail e hv hg he hm hs1 hs2 hs3] at h
                  exact absurd h (by simp)
          · -- histogram
            rcases hbe : (buildDistribution dir e.metricName e.lset (s :: tail)).err with _ | er
            · rcases hd : (buildDistribution dir e.metricName e.lset (s :: tail)).dist with _ | dd
              · rw [next_histogram_none_case dir s tail e hv hg he hm hd] at h
                exact absurd h (by simp)
              · rw [next_histogram_emit_case dir s tail e dd hv hg he hm hd hbe] at h
                have hts := finish_point _ _ _ _ _ _ _ ts h
                subst hts
                exact ⟨_, rfl, rfl⟩
            · have hshape := buildDistribution_err_shape dir e.metricName e.lset (s :: tail)
                (by rw [hbe]; simp)
              rw [next_histogram_none_case dir s tail e hv hg he hm hshape.2] at h
              exact absurd h (by simp)
          · rw [next_other_case dir s tail e u hv hg he hm] at h
            exact absurd h (by simp)
        · rw [Bool.not_eq_true] at he
          rw [next_unexported_case dir s tail e hv hg he] at h
          exact absurd h (by simp)
  · intro t
    refine ⟨rfl, ?_⟩
    have h1 : ((t.tmod 1000) * 1000000).tdiv 1000000 = t.tmod 1000 :=
      Int.mul_tdiv_cancel _ (by norm_num)
    have h2 := Int.tdiv_add_tmod t 1000
    simp only [getTimestamp, h1]
    omega

theorem claim_C5_point_shape_witness :
    (∃ p : Point,
        (⟨tmpl0, [⟨none, ⟨1, 500000000⟩, some (TypedValue.double (F.fin 42))⟩]⟩
          : TimeSeries).points = [p]
        ∧ p.endTime = getTimestamp (1500 : Int))
    ∧ (∀ t : Int, getTimestamp t = ⟨t.tdiv 1000, t.tmod 1000 * 1000000⟩
        ∧ (getTimestamp t).seconds * 1000 + ((getTimestamp t).nanos).tdiv 1000000 = t) :=
  claim_C5_point_shape dirGauge ⟨1, 1500, F.fin 42⟩ []
    ⟨tmpl0, [⟨none, ⟨1, 500000000⟩, some (TypedValue.double (F.fin 42))⟩]⟩ (by decide)

/-- A list obtained by dropping a prefix is either strictly shorter or the
whole list. -/
theorem drop_progress (s : RefSample) (tail : List RefSample) (c : Nat)
    (r : List RefSample) (hr : r = (s :: tail).drop c) :
    r.length < (s :: tail).length ∨ r = s :: tail := by
  cases c with
  | zero => right; simpa using hr
  | succ k =>
    left
    rw [hr]
    simp only [List.length_drop, List.length_cons]
    omega

/-- Claim C1 (amended): the stream returned by `next` is always a suffix of
the input (the input with some prefix dropped, hence never longer); when
`next` returns no error the returned stream is strictly shorter — except
that the histogram path may consume nothing (its family walk can break on
its very first series, e.g. one whose name equals the base name) and then
the full input stream is returned with a nil error, so repeated calls need
not terminate (see the counterexample). -/
theorem claim_C1_stream_progress (dir : SeriesDir) (s : RefSample) (tail : List RefSample) :
    (∃ c, (next dir s tail).rest = (s :: tail).drop c)
    ∧ ((next dir s tail).err = none →
        (next dir s tail).rest.length < (s :: tail).length
        ∨ ((next dir s tail).rest = s :: tail
            ∧ ∃ e, dir.get s.ref = GetRes.hit e ∧ e.mtype = MetricType.histogram)) := by
  by_cases hv : s.v.isNaN = true
  · rw [next_nan_case dir s tail hv]
    exact ⟨⟨1, rfl⟩, fun _ => Or.inl (by simp)⟩
  · rw [Bool.not_eq_true] at hv
    rcases hg : dir.get s.ref with _ | _ | e
    · rw [next_get_err_case dir s tail hv hg]
      exact ⟨⟨0, rfl⟩, fun h' => absurd h' (by simp)⟩
    · rw [next_get_miss_case dir s tail hv hg]
      exact ⟨⟨1, rfl⟩, fun _ => Or.inl (by simp)⟩
    · by_cases he : e.exported = true
      · rcases hm : e.mtype with _ | _ | _ | _ | _ | u
        · by_cases hok : (dir.getResetAdjusted s.ref s.t s.v).2.2 = true
          · rw [next_counter_emit_case dir s tail e hv hg he hm hok]
            rw [finish_rest]
            exact ⟨⟨1, rfl⟩, fun _ => Or.inl (by simp)⟩
          · rw [Bool.not_eq_true] at hok
            rw [next_counter_skip_case dir s tail e hv hg he hm hok]
            exact ⟨⟨1, rfl⟩, fun _ => Or.inl (by simp)⟩
        · rw [next_gauge_case dir s tail e hv hg he hm, finish_rest]
          exact ⟨⟨1, rfl⟩, fun _ => Or.inl (by simp)⟩
        · rw [next_unknown_case dir s tail e hv hg he hm, finish_rest]
          exact ⟨⟨1, rfl⟩, fun _ => Or.inl (by simp)⟩
        · by_cases hs1 : e.suffix = metricSuffixSum
          · by_cases hok : (dir.getResetAdjusted s.ref s.t s.v).2.2 = true
            · rw [next_summary_sum_emit_case dir s tail e hv hg he hm hs1 hok, finish_rest]
              exact ⟨⟨1, rfl⟩, fun _ => Or.inl (by simp)⟩
            · rw [Bool.not_eq_true] at hok
              rw [next_summary_sum_skip_case dir s tail e hv hg he hm hs1 hok]
              exact ⟨⟨1, rfl⟩, fun _ => Or.inl (by simp)⟩
          · by_cases hs2 : e.suffix = metricSuffixCount
            · by_cases hok : (dir.getResetAdjusted s.ref s.t s.v).2.2 = true
              · rw [next_summary_count_emit_case dir s tail e hv hg he hm hs1 hs2 hok,
                  finish_rest]
                exact ⟨⟨1, rfl⟩, fun _ => Or.inl (by simp)⟩
              · rw [Bool.not_eq_true] at hok
                rw [next_summary_count_skip_case dir s tail e hv hg he hm hs1 hs2 hok]
                exact ⟨⟨1, rfl⟩, fun _ => Or.inl (by simp)⟩
            · by_cases hs3 : e.suffix = ([] : Str)
              · rw [next_summary_quantile_case dir s tail e hv hg he hm hs1 hs2 hs3,
                  finish_rest]
                exact ⟨⟨1, rfl⟩, fun _ => Or.inl (by simp)⟩
              · rw [next_summary_bad_case dir s tail e hv hg he hm hs1 hs2 hs3]
                exact ⟨⟨1, rfl⟩, fun h' => absurd h' (by simp)⟩
        · -- histogram
          rcases hbe : (buildDistribution dir e.metricName e.lset (s :: tail)).err with _ | er
          · have hr := buildDistribution_ok_rest dir e.metricName e.lset (s :: tail) hbe
            rcases hd : (buildDistribution dir e.metricName e.lset (s :: tail)).dist with _ | dd
            · rw [next_histogram_none_case dir s tail e hv hg he hm hd]
              refine ⟨⟨_, hr⟩, fun _ => ?_⟩
              rcases drop_progress s tail _ _ hr with hl | hl
              · exact Or.inl hl
              · exact Or.inr ⟨hl, e, rfl, hm⟩
            · rw [next_histogram_emit_case dir s tail e dd hv hg he hm hd hbe, finish_rest]
              refine ⟨⟨_, hr⟩, fun _ => ?_⟩
              rcases drop_progress s tail _ _ hr with hl | hl
              · exact Or.inl hl
              · exact Or.inr ⟨hl, e, rfl, hm⟩
          · have hshape := buildDistribution_err_shape dir e.metricName e.lset (s :: tail)
              (by rw [hbe]; simp)
            rw [next_histogram_none_case dir s tail e hv hg he hm hshape.2]
            refine ⟨⟨0, by simpa using hshape.1⟩, fun h' => ?_⟩
            rw [hbe] at h'
            exact absurd h' (by simp)
        · rw [next_other_case dir s tail e u hv hg he hm]
          exact ⟨⟨1, rfl⟩, fun h' => absurd h' (by simp)⟩
      · rw [Bool.not_eq_true] at he
        rw [next_unexported_case dir s tail e hv hg he]
        exact ⟨⟨1, rfl⟩, fun _ => Or.inl (by simp)⟩

theorem claim_C1_stream_progress_counterexample :
    (next dirHistBase ⟨1, 1000, F.fin 1⟩ []).err = none
    ∧ (next dirHistBase ⟨1, 1000, F.fin 1⟩ []).rest = [⟨1, 1000, F.fin 1⟩]
    ∧ ¬ ((next dirHistBase ⟨1, 1000, F.fin 1⟩ []).rest.length
        < ([⟨1, 1000, F.fin 1⟩] : List RefSample).length) := by
  refine ⟨by decide, by decide, ?_⟩
  rw [show (next dirHistBase ⟨1, 1000, F.fin 1⟩ []).rest = [⟨1, 1000, F.fin 1⟩] from by decide]
  simp

theorem claim_C1_stream_progress_witness :
    (next dirMiss ⟨1, 0, F.fin 1⟩ []).rest.length < ([⟨1, 0, F.fin 1⟩] : List RefSample).length
    ∨ ((next dirMiss ⟨1, 0, F.fin 1⟩ []).rest = [⟨1, 0, F.fin 1⟩]
        ∧ ∃ e, dirMiss.get (⟨1, 0, F.fin 1⟩ : RefSample).ref = GetRes.hit e
          ∧ e.mtype = MetricType.histogram) :=
  (claim_C1_stream_progress dirMiss ⟨1, 0, F.fin 1⟩ []).2 (by decide)

/-- Claim C6: `next` returns a non-nil error exactly for: a series-directory
lookup failure (directly, or inside the histogram walk) — returned with the
full original stream unconsumed; a summary series whose suffix is none of
`_sum`/`_count`/empty — returned as "unexpected suffix" with the stream
advanced past the sample; and an unexpected metric type — returned with the
stream advanced.  The listed benign anomalies (NaN, missing series,
unexported series) return `(nil, 0, stream[1:], nil)`. -/
theorem claim_C6_error_cases (dir : SeriesDir) (s : RefSample) (tail : List RefSample) :
    ((next dir s tail).err ≠ none ↔
      (s.v.isNaN = false ∧
        (dir.get s.ref = GetRes.err ∨
          (∃ e, dir.get s.ref = GetRes.hit e ∧ e.exported = true ∧
            ((e.mtype = MetricType.summary ∧ e.suffix ≠ metricSuffixSum ∧
                e.suffix ≠ metricSuffixCount ∧ e.suffix ≠ ([] : Str))
              ∨ (∃ u, e.mtype = MetricType.other u)
              ∨ (e.mtype = MetricType.histogram ∧
                  (buildDistribution dir e.metricName e.lset (s :: tail)).err ≠ none))))))
    ∧ (s.v.isNaN = false → dir.get s.ref = GetRes.err →
        (next dir s tail).rest = s :: tail ∧ (next dir s tail).err = some Err.getSeries)
    ∧ (∀ e, s.v.isNaN = false → dir.get s.ref = GetRes.hit e → e.exported = true →
        e.mtype = MetricType.summary → e.suffix ≠ metricSuffixSum →
        e.suffix ≠ metricSuffixCount → e.suffix ≠ ([] : Str) →
        (next dir s tail).rest = tail ∧
        (next dir s tail).err = some (Err.unexpectedSuffix e.suffix))
    ∧ (∀ e u, s.v.isNaN = false → dir.get s.ref = GetRes.hit e → e.exported = true →
        e.mtype = MetricType.other u →
        (next dir s tail).rest = tail ∧
        (next dir s tail).err = some (Err.unexpectedType (MetricType.other u)))
    ∧ (∀ e, s.v.isNaN = false → dir.get s.ref = GetRes.hit e → e.exported = true →
        e.mtype = MetricType.histogram →
        (buildDistribution dir e.metricName e.lset (s :: tail)).err ≠ none →
        (next dir s tail).rest = s :: tail ∧
        (next dir s tail).err = (buildDistribution dir e.metricName e.lset (s :: tail)).err)
    ∧ (s.v.isNaN = true → next dir s tail = ⟨none, 0, tail, none, []⟩)
    ∧ (s.v.isNaN = false → dir.get s.ref = GetRes.miss →
        next dir s tail = ⟨none, 0, tail, none, [DirCall.get s.ref]⟩)
    ∧ (∀ e, s.v.isNaN = false → dir.get s.ref = GetRes.hit e → e.exported = false →
        (next dir s tail).point = none ∧ (next dir s tail).err = none ∧
        (next dir s tail).rest = tail) := by
  refine ⟨?_, ?_, ?_, ?_, ?_, ?_, ?_, ?_⟩
  · -- the error characterization
    by_cases hv : s.v.isNaN = true
    · rw [next_nan_case dir s tail hv]
      simp [hv]
    · rw [Bool.not_eq_true] at hv
      rcases hg : dir.get s.ref with _ | _ | e
      · rw [next_get_err_case dir s tail hv hg]
        simp [hv]
      · rw [next_get_miss_case dir s tail hv hg]
        simp
      · by_cases he : e.exported = true
        · rcases hm : e.mtype with _ | _ | _ | _ | _ | u
          · by_cases hok : (dir.getResetAdjusted s.ref s.t s.v).2.2 = true
            · rw [next_counter_emit_case dir s tail e hv hg he hm hok]
              simp [finish_err, hm]
            · rw [Bool.not_eq_true] at hok
              rw [next_counter_skip_case dir s tail e hv hg he hm hok]
              simp [hm]
          · rw [next_gauge_case dir s tail e hv hg he hm]
            simp [finish_err, hm]
          · rw [next_unknown_case dir s tail e hv hg he hm]
            simp [finish_err, hm]
          · by_cases hs1 : e.suffix = metricSuffixSum
            · by_cases hok : (dir.getResetAdjusted s.ref s.t s.v).2.2 = true
              · rw [next_summary_sum_emit_case dir s tail e hv hg he hm hs1 hok]
                simp [finish_err, hm, hs1]
              · rw [Bool.not_eq_true] at hok
                rw [next_summary_sum_skip_case dir s tail e hv hg he hm hs1 hok]
                simp [hm, hs1]
            · by_cases hs2 : e.suffix = metricSuffixCount
              · by_cases hok : (dir.getResetAdjusted s.ref s.t s.v).2.2 = true
                · rw [next_summary_count_emit_case dir s tail e hv hg he hm hs1 hs2 hok]
                  simp [finish_err, hm, hs2]
                · rw [Bool.not_eq_true] at hok
                  rw [next_summary_count_skip_case dir s tail e hv hg he hm hs1 hs2 hok]
                  simp [hm, hs2]
              · by_cases hs3 : e.suffix = ([] : Str)
                · rw [next_summary_quantile_case dir s tail e hv hg he hm hs1 hs2 hs3]
                  simp [finish_err, hm, hs3]
                · rw [next_summary_bad_case dir s tail e hv hg he hm hs1 hs2 hs3]
                  simp [hv, hm, he, hs1, hs2, hs3]
          · rcases hbe : (buildDistribution dir e.metricName e.lset (s :: tail)).err with _ | er
            · rcases hd : (buildDistribution dir e.metricName e.lset (s :: tail)).dist
                with _ | dd
              · rw [next_histogram_none_case dir s tail e hv hg he hm hd]
                simp [hm, hbe]
              · rw [next_histogram_emit_case dir s tail e dd hv hg he hm hd hbe]
                simp [finish_err, hm, hbe]
            · have hshape := buildDistribution_err_shape dir e.metricName e.lset (s :: tail)
                (by rw [hbe]; simp)
              rw [next_histogram_none_case dir s tail e hv hg he hm hshape.2]
              simp [hv, hm, he, hbe]
          · rw [next_other_case dir s tail e u hv hg he hm]
            simp [hv, hm, he]
        · rw [Bool.not_eq_true] at he
          rw [next_unexported_case dir s tail e hv hg he]
          simp [he]
  · intro hv hg
    rw [next_get_err_case dir s tail hv hg]
    exact ⟨rfl, rfl⟩
  · intro e hv hg he hm hs1 hs2 hs3
    rw [next_summary_bad_case dir s tail e hv hg he hm hs1 hs2 hs3]
    exact ⟨rfl, rfl⟩
  · intro e u hv hg he hm
    rw [next_other_case dir s tail e u hv hg he hm]
    exact ⟨rfl, rfl⟩
  · intro e hv hg he hm hbe
    have hshape := buildDistribution_err_shape dir e.metricName e.lset (s :: tail) hbe
    rw [next_histogram_none_case dir s tail e hv hg he hm hshape.2]
    exact ⟨hshape.1, rfl⟩
  · intro hv
    exact next_nan_case dir s tail hv
  · intro hv hg
    exact next_get_miss_case dir s tail hv hg
  · intro e hv hg he
    rw [next_unexported_case dir s tail e hv hg he]
    exact ⟨rfl, rfl, rfl⟩

theorem claim_C6_error_cases_witness :
    (next dirBadSummary ⟨1, 0, F.fin 1⟩ []).rest = ([] : List RefSample)
    ∧ (next dirBadSummary ⟨1, 0, F.fin 1⟩ []).err
        = some (Err.unexpectedSuffix entBadSummary.suffix) :=
  (claim_C6_error_cases dirBadSummary ⟨1, 0, F.fin 1⟩ []).2.2.1 entBadSummary
    (by decide) rfl rfl rfl (by decide) (by decide) (by decide)

end SidecarTransform
